import Mathlib

/-!
Formal model of the real-iop-estimator core: input validation, the eight
IOP estimators, dispersion statistics and the clinical interpretation
rules, embedded over exact rational arithmetic.  Each definition mirrors
one function of the source (`validation.py`, `*_iop.py`, `statistics.py`,
`interpretation.py`, `iop_calculator.py`, `config.py`).
-/

/-- The floor of a rational, written so that the kernel can evaluate it. -/
def ratFloor (q : ℚ) : ℤ := Rat.floor q

/-- Round a rational to the nearest integer, ties to even — the rounding
convention of the host language's built-in `round`. -/
def roundHalfEven (q : ℚ) : ℤ :=
  if q - ratFloor q < 1/2 then ratFloor q
  else if 1/2 < q - ratFloor q then ratFloor q + 1
  else if ratFloor q % 2 = 0 then ratFloor q else ratFloor q + 1

/-- `round(x, 1)` as used by every estimator: one decimal place. -/
def round1 (q : ℚ) : ℚ := (roundHalfEven (10 * q) : ℚ) / 10

/-- `CLINICAL_RANGES` from `config.py`: category key with `(min_val, max_val)`
bounds in mmHg, in dictionary insertion order. -/
def CLINICAL_RANGES : List (String × ℚ × ℚ) :=
  [("severe_hypotony", 0, 6),
   ("moderate_hypotony", 6, 8),
   ("mild_hypotony", 8, 10),
   ("normal", 10, 21),
   ("borderline_elevated", 21, 24),
   ("elevated", 24, 30),
   ("severely_elevated", 30, 100)]

/-- `INTERPRETATION_LABELS` from `config.py`, as a lookup function. -/
def INTERPRETATION_LABELS (category : String) : String :=
  if category = "severe_hypotony" then "Severe Hypotony"
  else if category = "moderate_hypotony" then "Moderate Hypotony"
  else if category = "mild_hypotony" then "Mild Hypotony"
  else if category = "normal" then "Normal Range"
  else if category = "borderline_elevated" then "Borderline Elevated"
  else if category = "elevated" then "Elevated"
  else "Severely Elevated"

/-- The `for category, (min_val, max_val) in CLINICAL_RANGES.items()` loop of
`interpret_iop`: first matching half-open interval wins. -/
def scanRanges (v : ℚ) : List (String × ℚ × ℚ) → Option String
  | [] => none
  | (c, lo, hi) :: rest => if lo ≤ v ∧ v < hi then some c else scanRanges v rest

/-- `interpret_iop` from `interpretation.py`: linear scan of `CLINICAL_RANGES`,
defaulting to the severely-elevated label when no interval matches. -/
def interpret_iop (iop_value : ℚ) : String :=
  match scanRanges iop_value CLINICAL_RANGES with
  | some c => INTERPRETATION_LABELS c
  | none => INTERPRETATION_LABELS "severely_elevated"

/-- `get_confidence_note` from `interpretation.py`; the thresholds 2, 4, 6 are
`VARIABILITY_THRESHOLDS` from `config.py`. -/
def get_confidence_note (variability : ℚ) : String :=
  if variability ≤ 2 then "Excellent measurement consistency - High confidence"
  else if variability ≤ 4 then "Good measurement consistency - Moderate confidence"
  else if variability ≤ 6 then "Fair measurement consistency - Consider additional measurements"
  else "High variability detected - Additional measurements recommended"

/-- Decimal digit test. -/
def isDigit (c : Char) : Bool := decide ('0' ≤ c) && decide (c ≤ '9')

/-- The ASCII whitespace removed by the host language's `strip()` (space,
tab, newline, vertical tab, form feed, carriage return and the four ASCII
separator characters).  `strip()` also removes non-ASCII Unicode whitespace,
which is outside this model; the full-float taxonomy theorem below therefore
scopes its input strings to ASCII. -/
def isSpaceChar (c : Char) : Bool :=
  c = ' ' || c = '\t' || c = '\n' || c = '\r' || c = '\x0b' || c = '\x0c' ||
  c = '\x1c' || c = '\x1d' || c = '\x1e' || c = '\x1f'

/-- `input_string.split(',')`: split on every comma, keeping empty pieces. -/
def splitCommaAux : List Char → List Char → List (List Char)
  | [], acc => [acc.reverse]
  | c :: cs, acc =>
      if c = ',' then acc.reverse :: splitCommaAux cs [] else splitCommaAux cs (c :: acc)

/-- `input_string.split(',')` on strings. -/
def pySplitComma (s : String) : List String :=
  (splitCommaAux s.toList []).map String.mk

/-- `x.strip()`: remove leading and trailing whitespace. -/
def pyStrip (s : String) : String :=
  String.mk (((s.toList.dropWhile isSpaceChar).reverse.dropWhile isSpaceChar).reverse)

/-- Value of a digit string. -/
def digitsToNat (cs : List Char) : ℕ :=
  cs.foldl (fun a c => 10 * a + (c.toNat - 48)) 0

/-- Core of the model of the host language's `float()` constructor on plain
decimal literals: digits with an optional decimal point, at least one digit. -/
def pyFloatAux (cs : List Char) : Option ℚ :=
  let intPart := cs.takeWhile isDigit
  match cs.dropWhile isDigit with
  | [] => if intPart.isEmpty then none else some (digitsToNat intPart : ℚ)
  | '.' :: frac =>
      if frac.all isDigit && !(intPart.isEmpty && frac.isEmpty) then
        some ((digitsToNat intPart : ℚ) + (digitsToNat frac : ℚ) / 10 ^ frac.length)
      else none
  | _ => none

/-- The plain-decimal fragment of `float(token)`: optional sign then digits
with an optional decimal point.  This is the formal reading of the claims'
phrase "valid decimal number".  The host language's `float()` accepts more
(scientific notation, underscore separators, `nan`, `inf`); that full
grammar is modelled by `pyFloatFull` below. -/
def pyFloat (s : String) : Option ℚ :=
  match s.toList with
  | '-' :: cs => (pyFloatAux cs).map (fun q => -q)
  | '+' :: cs => pyFloatAux cs
  | cs => pyFloatAux cs

/-- The error taxonomy of `validation.py` (the distinct `ValueError` kinds). -/
inductive IOPError
  | parseError (msg : String)
  | rangeError (msg : String)
  | insufficientDataError (msg : String)
deriving DecidableEq, Repr

/-- `MIN_IOP_VALUE` from `config.py`. -/
def MIN_IOP_VALUE : ℚ := 0

/-- `MAX_IOP_VALUE` from `config.py`. -/
def MAX_IOP_VALUE : ℚ := 100

/-- `MIN_MEASUREMENTS` from `config.py`. -/
def MIN_MEASUREMENTS : ℕ := 3

/-- The token list built inside `parse_iop_input`: split on commas, strip each
piece, discard blank pieces. -/
def iopTokens (s : String) : List String :=
  ((pySplitComma s).map pyStrip).filter (fun t => t ≠ "")

/-- The `[float(x.strip()) for x in ...]` comprehension: convert every token,
failing as a whole when any token is malformed. -/
def floatList : List String → Option (List ℚ)
  | [] => some []
  | t :: ts =>
      match pyFloat t, floatList ts with
      | some v, some vs => some (v :: vs)
      | _, _ => none

/-- `parse_iop_input` from `validation.py`: empty-input check, token
conversion, emptiness check, then the per-value range check in order. -/
def parse_iop_input (input_string : String) : Except IOPError (List ℚ) :=
  if input_string = "" ∨ pyStrip input_string = "" then
    .error (.parseError "Input cannot be empty")
  else
    match floatList (iopTokens input_string) with
    | none => .error (.parseError "Invalid number format. Use comma-separated numeric values.")
    | some values =>
        if values = [] then .error (.parseError "No valid values found in input")
        else
          match values.find? (fun v => decide (v < MIN_IOP_VALUE) || decide (MAX_IOP_VALUE < v)) with
          | some _ => .error (.rangeError "IOP value is out of acceptable range (0-100 mmHg)")
          | none => .ok values

/-- `validate_measurement_count` from `validation.py`. -/
def validate_measurement_count (measurements : List ℚ) : Except IOPError Unit :=
  if measurements.length < MIN_MEASUREMENTS then
    .error (.insufficientDataError "At least 3 measurements are required for robust estimation")
  else .ok ()

/-- `validate_measurements` from `validation.py`: the full validation pipeline. -/
def validate_measurements (input_string : String) : Except IOPError (List ℚ) :=
  match parse_iop_input input_string with
  | .error e => .error e
  | .ok measurements =>
      match validate_measurement_count measurements with
      | .error e => .error e
      | .ok _ => .ok measurements

/-- ASCII lower-casing, as applied by `float()` when matching the special
names `inf`, `infinity` and `nan`. -/
def asciiLower (c : Char) : Char :=
  if 'A' ≤ c ∧ c ≤ 'Z' then Char.ofNat (c.toNat + 32) else c

/-- Continuation of a digit group: each underscore must be followed (and,
by construction of `digitGroup`, preceded) by a digit. -/
def digitGroupRest : List Char → Bool
  | [] => true
  | '_' :: rest =>
      match rest with
      | [] => false
      | c :: rest2 => isDigit c && digitGroupRest rest2
  | c :: rest => isDigit c && digitGroupRest rest

/-- A digit group as `float()` accepts it: a nonempty digit sequence with
single underscores strictly between digits ("1_000"; not "_1", "1_", "1__0"). -/
def digitGroup (cs : List Char) : Bool :=
  match cs with
  | [] => false
  | c :: rest => isDigit c && digitGroupRest rest

/-- Remove the underscore separators of a digit group. -/
def stripUnderscores (cs : List Char) : List Char := cs.filter (fun c => c ≠ '_')

/-- Split at the first character satisfying `p`: the piece before it and,
when it occurs, the remainder after it. -/
def splitFirst (p : Char → Bool) : List Char → List Char × Option (List Char)
  | [] => ([], none)
  | c :: rest =>
      if p c then ([], some rest)
      else
        let r := splitFirst p rest
        (c :: r.1, r.2)

/-- The finite decimal/scientific fragment of `float()`:
`[digits][.digits?][(e|E)[+|-]digits]` with underscore separators allowed
inside digit groups and at least one mantissa digit required.  The value is
read in exact decimal arithmetic (binary floating-point representation error
and overflow to infinity are outside the model). -/
def pyDecimal (cs : List Char) : Option ℚ :=
  let me := splitFirst (fun c => c = 'e' || c = 'E') cs
  let ipfp := splitFirst (fun c => c = '.') me.1
  let mantissa : Option ℚ :=
    match ipfp.2 with
    | none =>
        if digitGroup ipfp.1 then some (digitsToNat (stripUnderscores ipfp.1) : ℚ)
        else none
    | some fp =>
        if (ipfp.1.isEmpty || digitGroup ipfp.1) && (fp.isEmpty || digitGroup fp) &&
            !(ipfp.1.isEmpty && fp.isEmpty) then
          some ((digitsToNat (stripUnderscores ipfp.1) : ℚ) +
            (digitsToNat (stripUnderscores fp) : ℚ) / 10 ^ (stripUnderscores fp).length)
        else none
  match me.2 with
  | none => mantissa
  | some ex =>
      let sd : Bool × List Char :=
        match ex with
        | '+' :: r => (true, r)
        | '-' :: r => (false, r)
        | r => (true, r)
      if digitGroup sd.2 then
        mantissa.map (fun m =>
          if sd.1 then m * 10 ^ digitsToNat (stripUnderscores sd.2)
          else m / 10 ^ digitsToNat (stripUnderscores sd.2))
      else none

/-- The values `float()` can return: a finite number (kept as an exact
rational), NaN, or an infinity. -/
inductive PyVal
  | finite (q : ℚ)
  | nan
  | inf
  | ninf
deriving DecidableEq, Repr

/-- Unary minus on parsed float values (the sign of NaN is not observable
in any comparison the program makes). -/
def PyVal.neg : PyVal → PyVal
  | .finite q => .finite (-q)
  | .nan => .nan
  | .inf => .ninf
  | .ninf => .inf

/-- Unsigned part of the full `float()` model: the special names `inf`,
`infinity` and `nan` (case-insensitive), otherwise a decimal/scientific
literal. -/
def pyFloatFullAux (cs : List Char) : Option PyVal :=
  let lower := cs.map asciiLower
  if lower = "inf".toList ∨ lower = "infinity".toList then some .inf
  else if lower = "nan".toList then some .nan
  else (pyDecimal cs).map PyVal.finite

/-- Full model of `float(token)` on ASCII tokens: optional sign, then a
special name or a decimal/scientific literal. -/
def pyFloatFull (s : String) : Option PyVal :=
  match s.toList with
  | '-' :: cs => (pyFloatFullAux cs).map PyVal.neg
  | '+' :: cs => pyFloatFullAux cs
  | cs => pyFloatFullAux cs

/-- The comparison `val < bound` as the program evaluates it on float values
(IEEE ordering: every comparison with NaN is false). -/
def pyValLt : PyVal → ℚ → Bool
  | .finite q, b => decide (q < b)
  | .nan, _ => false
  | .inf, _ => false
  | .ninf, _ => true

/-- The comparison `val > bound` on float values. -/
def pyValGt : PyVal → ℚ → Bool
  | .finite q, b => decide (b < q)
  | .nan, _ => false
  | .inf, _ => true
  | .ninf, _ => false

/-- The token-conversion comprehension under the full `float()` model. -/
def floatListFull : List String → Option (List PyVal)
  | [] => some []
  | t :: ts =>
      match pyFloatFull t, floatListFull ts with
      | some v, some vs => some (v :: vs)
      | _, _ => none

/-- `parse_iop_input` under the full `float()` model: identical control flow,
with the range check `val < MIN or val > MAX` evaluated in float ordering
(NaN fails both comparisons and so passes). -/
def parse_iop_input_full (input_string : String) : Except IOPError (List PyVal) :=
  if input_string = "" ∨ pyStrip input_string = "" then
    .error (.parseError "Input cannot be empty")
  else
    match floatListFull (iopTokens input_string) with
    | none => .error (.parseError "Invalid number format. Use comma-separated numeric values.")
    | some values =>
        if values = [] then .error (.parseError "No valid values found in input")
        else
          match values.find? (fun v => pyValLt v MIN_IOP_VALUE || pyValGt v MAX_IOP_VALUE) with
          | some _ => .error (.rangeError "IOP value is out of acceptable range (0-100 mmHg)")
          | none => .ok values

/-- `validate_measurement_count` on full float values. -/
def validate_measurement_count_full (measurements : List PyVal) : Except IOPError Unit :=
  if measurements.length < MIN_MEASUREMENTS then
    .error (.insufficientDataError "At least 3 measurements are required for robust estimation")
  else .ok ()

/-- `validate_measurements` under the full `float()` model. -/
def validate_measurements_full (input_string : String) : Except IOPError (List PyVal) :=
  match parse_iop_input_full input_string with
  | .error e => .error e
  | .ok measurements =>
      match validate_measurement_count_full measurements with
      | .error e => .error e
      | .ok _ => .ok measurements

/-- `np.min` on an array (0 as junk value on the empty list). -/
def listMin : List ℚ → ℚ
  | [] => 0
  | [x] => x
  | x :: y :: t => min x (listMin (y :: t))

/-- `np.max` on an array (0 as junk value on the empty list). -/
def listMax : List ℚ → ℚ
  | [] => 0
  | [x] => x
  | x :: y :: t => max x (listMax (y :: t))

/-- `sorted(...)` / `np.sort`: the ascending rearrangement. -/
def sortList (l : List ℚ) : List ℚ := l.insertionSort (· ≤ ·)

/-- `np.median`: middle element of the sorted data, or the average of the two
middle elements for even length. -/
def npMedian (m : List ℚ) : ℚ :=
  let s := sortList m
  if m.length % 2 = 1 then s.getD (m.length / 2) 0
  else (s.getD (m.length / 2 - 1) 0 + s.getD (m.length / 2) 0) / 2

/-- `np.percentile(..., p)` with the default linear-interpolation method:
interpolate between the order statistics around rank `p/100 * (n-1)`. -/
def npPercentile (m : List ℚ) (p : ℚ) : ℚ :=
  let s := sortList m
  let pos : ℚ := p / 100 * ((m.length : ℚ) - 1)
  let lo : ℕ := (⌊pos⌋).toNat
  let hi : ℕ := (⌈pos⌉).toNat
  s.getD lo 0 + (pos - (lo : ℚ)) * (s.getD hi 0 - s.getD lo 0)

/-- `calculate_safe_iop` from `safe_iop.py`: trimmed mean
`(Σx − min − max) / (n − 2)`, rounded to one decimal. -/
def calculate_safe_iop (measurements : List ℚ) : ℚ :=
  if measurements.length < 3 then round1 (measurements.sum / measurements.length)
  else round1 ((measurements.sum - listMin measurements - listMax measurements) /
    ((measurements.length : ℚ) - 2))

/-- `calculate_possible_iop` from `possible_iop.py`: the median. -/
def calculate_possible_iop (measurements : List ℚ) : ℚ :=
  round1 (npMedian measurements)

/-- `calculate_clinical_iop` from `clinical_iop.py`: range midpoint. -/
def calculate_clinical_iop (measurements : List ℚ) : ℚ :=
  round1 ((listMin measurements + listMax measurements) / 2)

/-- `calculate_mean_iop` from `mean_iop.py`: arithmetic mean. -/
def calculate_mean_iop (measurements : List ℚ) : ℚ :=
  round1 (measurements.sum / measurements.length)

/-- `calculate_trimean_iop` from `trimean_iop.py`: `(Q1 + 2·median + Q3)/4`. -/
def calculate_trimean_iop (measurements : List ℚ) : ℚ :=
  round1 ((npPercentile measurements 25 + 2 * npMedian measurements +
    npPercentile measurements 75) / 4)

/-- `calculate_iqm_iop` from `iqm_iop.py`: mean of the slice
`sorted[⌊n/4⌋ : ⌈3n/4⌉]`, with a full-sample-mean fallback when empty. -/
def calculate_iqm_iop (measurements : List ℚ) : ℚ :=
  let s := sortList measurements
  let n := measurements.length
  let lowerIdx := n / 4
  let upperIdx := (3 * n + 3) / 4
  let iqrData := (s.drop lowerIdx).take (upperIdx - lowerIdx)
  if iqrData.length = 0 then round1 (measurements.sum / n)
  else round1 (iqrData.sum / iqrData.length)

/-- `calculate_winsorized_iop` from `winsorized_iop.py`: replace the smallest
value by the second smallest and the largest by the second largest, then mean. -/
def calculate_winsorized_iop (measurements : List ℚ) : ℚ :=
  if measurements.length < 3 then round1 (measurements.sum / measurements.length)
  else
    let s := sortList measurements
    let n := measurements.length
    let w := (s.set 0 (s.getD 1 0)).set (n - 1) (s.getD (n - 2) 0)
    round1 (w.sum / n)

/-- The consistency weights `w = 1 / (1 + |x − median|)` of
`calculate_weighted_iop`. -/
def weightList (measurements : List ℚ) : List ℚ :=
  measurements.map (fun x => 1 / (1 + |x - npMedian measurements|))

/-- `calculate_weighted_iop` from `weighted_iop.py`:
`Σ(wᵢ·xᵢ) / Σwᵢ` with the consistency weights. -/
def calculate_weighted_iop (measurements : List ℚ) : ℚ :=
  round1 ((List.zipWith (· * ·) (weightList measurements) measurements).sum /
    (weightList measurements).sum)

/-- `get_range` from `statistics.py`: rounded `(min, max)`. -/
def get_range (measurements : List ℚ) : ℚ × ℚ :=
  (round1 (listMin measurements), round1 (listMax measurements))

/-- `get_variability` from `statistics.py`: rounded `max − min`. -/
def get_variability (measurements : List ℚ) : ℚ :=
  round1 (listMax measurements - listMin measurements)

/-- The sample variance (`np.std(..., ddof=1)` squared), exact. -/
def sampleVariance (measurements : List ℚ) : ℚ :=
  (measurements.map
    (fun x => (x - measurements.sum / measurements.length) ^ 2)).sum /
    ((measurements.length : ℚ) - 1)

/-- Ties-to-even rounding on the reals, mirroring `roundHalfEven`. -/
noncomputable def roundHalfEvenR (x : ℝ) : ℤ :=
  if x - ⌊x⌋ < 1/2 then ⌊x⌋
  else if 1/2 < x - ⌊x⌋ then ⌊x⌋ + 1
  else if ⌊x⌋ % 2 = 0 then ⌊x⌋ else ⌊x⌋ + 1

/-- `get_standard_deviation` from `statistics.py`:
`round(np.std(measurements, ddof=1), 2)`. -/
noncomputable def get_standard_deviation (measurements : List ℚ) : ℝ :=
  (roundHalfEvenR (100 * Real.sqrt (sampleVariance measurements)) : ℝ) / 100

/-- The result record of `IOPCalculator.calculate_all`. -/
structure IOPResults where
  safe_iop : ℚ
  possible_iop : ℚ
  clinical_iop : ℚ
  mean_iop : ℚ
  trimean_iop : ℚ
  iqm_iop : ℚ
  winsorized_iop : ℚ
  weighted_iop : ℚ
  min_iop : ℚ
  max_iop : ℚ
  variability : ℚ
  std_dev : ℝ
  n_measurements : ℕ

/-- The sorted copy stored by `IOPCalculator.__init__`
(`self.measurements = np.array(sorted(measurements))`). -/
def calcMeasurements (measurements : List ℚ) : List ℚ := sortList measurements

/-- `IOPCalculator.calculate_all`: every estimate and statistic, computed on
the stored sorted copy.  The constructor's `n ≥ 3` requirement is carried as a
hypothesis by the theorems below. -/
noncomputable def calculate_all (measurements : List ℚ) : IOPResults :=
  let s := calcMeasurements measurements
  { safe_iop := calculate_safe_iop s
    possible_iop := calculate_possible_iop s
    clinical_iop := calculate_clinical_iop s
    mean_iop := calculate_mean_iop s
    trimean_iop := calculate_trimean_iop s
    iqm_iop := calculate_iqm_iop s
    winsorized_iop := calculate_winsorized_iop s
    weighted_iop := calculate_weighted_iop s
    min_iop := (get_range s).1
    max_iop := (get_range s).2
    variability := get_variability s
    std_dev := get_standard_deviation s
    n_measurements := s.length }

theorem ratFloor_eq_floor (q : ℚ) : ratFloor q = ⌊q⌋ :=
  (Rat.floor_def' q).trans Rat.floor_def.symm

/-- `roundHalfEven` phrased with the mathematical floor. -/
theorem roundHalfEven_eq_cases (q : ℚ) :
    roundHalfEven q =
      if q - ⌊q⌋ < 1/2 then ⌊q⌋
      else if 1/2 < q - ⌊q⌋ then ⌊q⌋ + 1
      else if ⌊q⌋ % 2 = 0 then ⌊q⌋ else ⌊q⌋ + 1 := by
  rw [roundHalfEven, ratFloor_eq_floor]

theorem roundHalfEven_mono {p q : ℚ} (h : p ≤ q) :
    roundHalfEven p ≤ roundHalfEven q := by
  rw [roundHalfEven_eq_cases p, roundHalfEven_eq_cases q]
  have hf : ⌊p⌋ ≤ ⌊q⌋ := Int.floor_le_floor h
  rcases lt_or_eq_of_le hf with hlt | heq
  · split_ifs <;> omega
  · have hq : ((⌊p⌋ : ℤ) : ℚ) = ((⌊q⌋ : ℤ) : ℚ) := by exact_mod_cast heq
    split_ifs <;> first | omega | (exfalso; linarith)

theorem round1_mono {p q : ℚ} (h : p ≤ q) : round1 p ≤ round1 q := by
  have h1 : roundHalfEven (10 * p) ≤ roundHalfEven (10 * q) :=
    roundHalfEven_mono (by linarith)
  rw [round1, round1, div_le_div_iff₀ (by norm_num) (by norm_num)]
  have : ((roundHalfEven (10 * p) : ℤ) : ℚ) ≤ ((roundHalfEven (10 * q) : ℤ) : ℚ) := by
    exact_mod_cast h1
  linarith

theorem listMin_le_of_mem : ∀ {l : List ℚ} {x : ℚ}, x ∈ l → listMin l ≤ x := by
  intro l
  induction l with
  | nil => intro x hx; cases hx
  | cons a t ih =>
      intro x hx
      cases t with
      | nil =>
          rcases List.mem_cons.mp hx with rfl | h
          · exact le_of_eq rfl
          · cases h
      | cons b u =>
          rw [listMin]
          rcases List.mem_cons.mp hx with rfl | h
          · exact min_le_left _ _
          · exact le_trans (min_le_right _ _) (ih h)

theorem le_listMax_of_mem : ∀ {l : List ℚ} {x : ℚ}, x ∈ l → x ≤ listMax l := by
  intro l
  induction l with
  | nil => intro x hx; cases hx
  | cons a t ih =>
      intro x hx
      cases t with
      | nil =>
          rcases List.mem_cons.mp hx with rfl | h
          · exact le_of_eq rfl
          · cases h
      | cons b u =>
          rw [listMax]
          rcases List.mem_cons.mp hx with rfl | h
          · exact le_max_left _ _
          · exact le_trans (ih h) (le_max_right _ _)

theorem listMin_mem : ∀ {l : List ℚ}, l ≠ [] → listMin l ∈ l := by
  intro l
  induction l with
  | nil => intro h; exact absurd rfl h
  | cons a t ih =>
      intro _
      cases t with
      | nil => rw [listMin]; exact List.mem_singleton_self a
      | cons b u =>
          rw [listMin]
          rcases le_total a (listMin (b :: u)) with h | h
          · rw [min_eq_left h]; exact List.mem_cons_self a _
          · rw [min_eq_right h]
            exact List.mem_cons_of_mem a (ih (List.cons_ne_nil b u))

theorem listMax_mem : ∀ {l : List ℚ}, l ≠ [] → listMax l ∈ l := by
  intro l
  induction l with
  | nil => intro h; exact absurd rfl h
  | cons a t ih =>
      intro _
      cases t with
      | nil => rw [listMax]; exact List.mem_singleton_self a
      | cons b u =>
          rw [listMax]
          rcases le_total a (listMax (b :: u)) with h | h
          · rw [max_eq_right h]
            exact List.mem_cons_of_mem a (ih (List.cons_ne_nil b u))
          · rw [max_eq_left h]; exact List.mem_cons_self a _

theorem listMin_eq_of_mem_of_le {l : List ℚ} {a : ℚ} (ha : a ∈ l)
    (h : ∀ x ∈ l, a ≤ x) : listMin l = a :=
  le_antisymm (listMin_le_of_mem ha) (h _ (listMin_mem (List.ne_nil_of_mem ha)))

theorem listMax_eq_of_mem_of_le {l : List ℚ} {a : ℚ} (ha : a ∈ l)
    (h : ∀ x ∈ l, x ≤ a) : listMax l = a :=
  le_antisymm (h _ (listMax_mem (List.ne_nil_of_mem ha))) (le_listMax_of_mem ha)

theorem sortList_perm (l : List ℚ) : (sortList l).Perm l :=
  List.perm_insertionSort _ l

theorem sortList_sorted (l : List ℚ) : (sortList l).Sorted (· ≤ ·) :=
  List.sorted_insertionSort _ l

theorem mem_sortList {l : List ℚ} {x : ℚ} : x ∈ sortList l ↔ x ∈ l :=
  (sortList_perm l).mem_iff

theorem sortList_length (l : List ℚ) : (sortList l).length = l.length :=
  (sortList_perm l).length_eq

theorem sortList_sum (l : List ℚ) : (sortList l).sum = l.sum :=
  (sortList_perm l).sum_eq

theorem sortList_ne_nil {l : List ℚ} (h : l ≠ []) : sortList l ≠ [] := by
  intro hs
  exact h (List.length_eq_zero.mp (by rw [← sortList_length l, hs]; rfl))

theorem listMin_sortList {l : List ℚ} (h : l ≠ []) :
    listMin (sortList l) = listMin l :=
  listMin_eq_of_mem_of_le (mem_sortList.mpr (listMin_mem h))
    (fun _ hx => listMin_le_of_mem (mem_sortList.mp hx))

theorem listMax_sortList {l : List ℚ} (h : l ≠ []) :
    listMax (sortList l) = listMax l :=
  listMax_eq_of_mem_of_le (mem_sortList.mpr (listMax_mem h))
    (fun _ hx => le_listMax_of_mem (mem_sortList.mp hx))

theorem length_mul_le_sum {l : List ℚ} {a : ℚ} (h : ∀ x ∈ l, a ≤ x) :
    (l.length : ℚ) * a ≤ l.sum := by
  induction l with
  | nil => simp
  | cons b t ih =>
      have hb := h b (List.mem_cons_self b t)
      have ht := ih fun x hx => h x (List.mem_cons_of_mem _ hx)
      simp only [List.sum_cons, List.length_cons]
      push_cast
      linarith

theorem sum_le_length_mul {l : List ℚ} {a : ℚ} (h : ∀ x ∈ l, x ≤ a) :
    l.sum ≤ (l.length : ℚ) * a := by
  induction l with
  | nil => simp
  | cons b t ih =>
      have hb := h b (List.mem_cons_self b t)
      have ht := ih fun x hx => h x (List.mem_cons_of_mem _ hx)
      simp only [List.sum_cons, List.length_cons]
      push_cast
      linarith

theorem mean_bounds {l : List ℚ} (hne : l ≠ []) {a b : ℚ}
    (hlo : ∀ x ∈ l, a ≤ x) (hhi : ∀ x ∈ l, x ≤ b) :
    a ≤ l.sum / (l.length : ℚ) ∧ l.sum / (l.length : ℚ) ≤ b := by
  have hn : (0 : ℚ) < (l.length : ℚ) := by exact_mod_cast List.length_pos.mpr hne
  constructor
  · rw [le_div_iff₀ hn]
    have := length_mul_le_sum hlo
    linarith
  · rw [div_le_iff₀ hn]
    have := sum_le_length_mul hhi
    linarith

theorem getD_mem {l : List ℚ} {i : ℕ} (h : i < l.length) : l.getD i 0 ∈ l := by
  rw [List.getD_eq_getElem l 0 h]
  exact List.getElem_mem h

theorem npMedian_bounds {m : List ℚ} (hne : m ≠ []) :
    listMin m ≤ npMedian m ∧ npMedian m ≤ listMax m := by
  have hlen : (sortList m).length = m.length := sortList_length m
  have hn : 0 < m.length := List.length_pos.mpr hne
  have hmem : ∀ i, i < m.length → (sortList m).getD i 0 ∈ m := fun i hi =>
    mem_sortList.mp (getD_mem (by rw [hlen]; exact hi))
  simp only [npMedian]
  split_ifs with hpar
  · have h2 : m.length / 2 < m.length := Nat.div_lt_self hn (by norm_num)
    exact ⟨listMin_le_of_mem (hmem _ h2), le_listMax_of_mem (hmem _ h2)⟩
  · have h2 : m.length / 2 < m.length := Nat.div_lt_self hn (by norm_num)
    have h1 : m.length / 2 - 1 < m.length := by omega
    have e1 := hmem _ h1
    have e2 := hmem _ h2
    constructor
    · have l1 := listMin_le_of_mem e1
      have l2 := listMin_le_of_mem e2
      linarith
    · have l1 := le_listMax_of_mem e1
      have l2 := le_listMax_of_mem e2
      linarith

theorem npPercentile_index_bounds {m : List ℚ} (hne : m ≠ []) {p : ℚ}
    (hp0 : 0 ≤ p) (hp1 : p ≤ 100) :
    (⌊p / 100 * ((m.length : ℚ) - 1)⌋).toNat < m.length ∧
    (⌈p / 100 * ((m.length : ℚ) - 1)⌉).toNat < m.length ∧
    0 ≤ ⌊p / 100 * ((m.length : ℚ) - 1)⌋ := by
  have hn : 1 ≤ m.length := List.length_pos.mpr hne
  have hn1 : (1 : ℚ) ≤ (m.length : ℚ) := by exact_mod_cast hn
  have hp100 : 0 ≤ p / 100 := by positivity
  have hp100' : p / 100 ≤ 1 := by
    rw [div_le_one (by norm_num : (0:ℚ) < 100)]
    exact hp1
  have hpos0 : 0 ≤ p / 100 * ((m.length : ℚ) - 1) := by nlinarith
  have hposle : p / 100 * ((m.length : ℚ) - 1) ≤ (m.length : ℚ) - 1 := by nlinarith
  have hfl : 0 ≤ ⌊p / 100 * ((m.length : ℚ) - 1)⌋ := Int.floor_nonneg.mpr hpos0
  have hflle : ⌊p / 100 * ((m.length : ℚ) - 1)⌋ ≤ (m.length : ℤ) - 1 := by
    have h := Int.floor_le_floor hposle
    rwa [Int.floor_sub_one, Int.floor_natCast] at h
  have hcl : ⌈p / 100 * ((m.length : ℚ) - 1)⌉ ≤ (m.length : ℤ) - 1 := by
    have h := Int.ceil_le_ceil hposle
    rwa [Int.ceil_sub_one, Int.ceil_natCast] at h
  refine ⟨?_, ?_, hfl⟩ <;> omega

theorem npPercentile_bounds {m : List ℚ} (hne : m ≠ []) {p : ℚ}
    (hp0 : 0 ≤ p) (hp1 : p ≤ 100) :
    listMin m ≤ npPercentile m p ∧ npPercentile m p ≤ listMax m := by
  obtain ⟨hlo, hhi, hfl⟩ := npPercentile_index_bounds hne hp0 hp1
  have hlen : (sortList m).length = m.length := sortList_length m
  simp only [npPercentile]
  have hu : (sortList m).getD (⌊p / 100 * ((m.length : ℚ) - 1)⌋).toNat 0 ∈ m :=
    mem_sortList.mp (getD_mem (by rw [hlen]; exact hlo))
  have hw : (sortList m).getD (⌈p / 100 * ((m.length : ℚ) - 1)⌉).toNat 0 ∈ m :=
    mem_sortList.mp (getD_mem (by rw [hlen]; exact hhi))
  have hcast : (((⌊p / 100 * ((m.length : ℚ) - 1)⌋).toNat : ℕ) : ℚ) =
      ((⌊p / 100 * ((m.length : ℚ) - 1)⌋ : ℤ) : ℚ) := by
    exact_mod_cast congrArg (fun z : ℤ => (z : ℚ)) (Int.toNat_of_nonneg hfl)
  have hf0 : 0 ≤ p / 100 * ((m.length : ℚ) - 1) -
      ((⌊p / 100 * ((m.length : ℚ) - 1)⌋).toNat : ℚ) := by
    rw [hcast]
    linarith [Int.floor_le (p / 100 * ((m.length : ℚ) - 1))]
  have hf1 : p / 100 * ((m.length : ℚ) - 1) -
      ((⌊p / 100 * ((m.length : ℚ) - 1)⌋).toNat : ℚ) ≤ 1 := by
    rw [hcast]
    linarith [Int.lt_floor_add_one (p / 100 * ((m.length : ℚ) - 1))]
  have hua := listMin_le_of_mem hu
  have hub := le_listMax_of_mem hu
  have hwa := listMin_le_of_mem hw
  have hwb := le_listMax_of_mem hw
  constructor
  · nlinarith [mul_le_mul_of_nonneg_right hua (by linarith :
        (0:ℚ) ≤ 1 - (p / 100 * ((m.length : ℚ) - 1) -
          ((⌊p / 100 * ((m.length : ℚ) - 1)⌋).toNat : ℚ))),
      mul_le_mul_of_nonneg_right hwa hf0]
  · nlinarith [mul_le_mul_of_nonneg_right hub (by linarith :
        (0:ℚ) ≤ 1 - (p / 100 * ((m.length : ℚ) - 1) -
          ((⌊p / 100 * ((m.length : ℚ) - 1)⌋).toNat : ℚ))),
      mul_le_mul_of_nonneg_right hwb hf0]

theorem sum_lower_with_max {m : List ℚ} (hne : m ≠ []) :
    ((m.length : ℚ) - 1) * listMin m + listMax m ≤ m.sum := by
  have hb : listMax m ∈ m := listMax_mem hne
  have hperm : m.Perm (listMax m :: m.erase (listMax m)) := List.perm_cons_erase hb
  have hsum : m.sum = listMax m + (m.erase (listMax m)).sum := by
    rw [hperm.sum_eq, List.sum_cons]
  have hlen : (m.erase (listMax m)).length = m.length - 1 :=
    List.length_erase_of_mem hb
  have hlow : ((m.erase (listMax m)).length : ℚ) * listMin m ≤
      (m.erase (listMax m)).sum :=
    length_mul_le_sum fun x hx => listMin_le_of_mem (List.mem_of_mem_erase hx)
  have hn : 1 ≤ m.length := List.length_pos.mpr hne
  rw [hlen, Nat.cast_sub hn, Nat.cast_one] at hlow
  linarith

theorem sum_upper_with_min {m : List ℚ} (hne : m ≠ []) :
    m.sum ≤ listMin m + ((m.length : ℚ) - 1) * listMax m := by
  have hb : listMin m ∈ m := listMin_mem hne
  have hperm : m.Perm (listMin m :: m.erase (listMin m)) := List.perm_cons_erase hb
  have hsum : m.sum = listMin m + (m.erase (listMin m)).sum := by
    rw [hperm.sum_eq, List.sum_cons]
  have hlen : (m.erase (listMin m)).length = m.length - 1 :=
    List.length_erase_of_mem hb
  have hupp : (m.erase (listMin m)).sum ≤
      ((m.erase (listMin m)).length : ℚ) * listMax m :=
    sum_le_length_mul fun x hx => le_listMax_of_mem (List.mem_of_mem_erase hx)
  have hn : 1 ≤ m.length := List.length_pos.mpr hne
  rw [hlen, Nat.cast_sub hn, Nat.cast_one] at hupp
  linarith

theorem calculate_mean_iop_bounds {m : List ℚ} (h3 : 3 ≤ m.length) :
    round1 (listMin m) ≤ calculate_mean_iop m ∧
    calculate_mean_iop m ≤ round1 (listMax m) := by
  have hne : m ≠ [] := by intro h; rw [h] at h3; simp at h3
  have hb := mean_bounds hne (fun x hx => listMin_le_of_mem hx)
    (fun x hx => le_listMax_of_mem hx)
  exact ⟨round1_mono hb.1, round1_mono hb.2⟩

theorem calculate_safe_iop_bounds {m : List ℚ} (h3 : 3 ≤ m.length) :
    round1 (listMin m) ≤ calculate_safe_iop m ∧
    calculate_safe_iop m ≤ round1 (listMax m) := by
  have hne : m ≠ [] := by intro h; rw [h] at h3; simp at h3
  have hlow := sum_lower_with_max hne
  have hupp := sum_upper_with_min hne
  have hab : listMin m ≤ listMax m := listMin_le_of_mem (listMax_mem hne)
  have hn : (3 : ℚ) ≤ (m.length : ℚ) := by exact_mod_cast h3
  have hpos : (0 : ℚ) < (m.length : ℚ) - 2 := by linarith
  rw [calculate_safe_iop, if_neg (by omega)]
  constructor
  · apply round1_mono
    rw [le_div_iff₀ hpos]
    linarith
  · apply round1_mono
    rw [div_le_iff₀ hpos]
    linarith

theorem calculate_clinical_iop_bounds {m : List ℚ} (h3 : 3 ≤ m.length) :
    round1 (listMin m) ≤ calculate_clinical_iop m ∧
    calculate_clinical_iop m ≤ round1 (listMax m) := by
  have hne : m ≠ [] := by intro h; rw [h] at h3; simp at h3
  have hab : listMin m ≤ listMax m := listMin_le_of_mem (listMax_mem hne)
  rw [calculate_clinical_iop]
  exact ⟨round1_mono (by linarith), round1_mono (by linarith)⟩

theorem calculate_possible_iop_bounds {m : List ℚ} (h3 : 3 ≤ m.length) :
    round1 (listMin m) ≤ calculate_possible_iop m ∧
    calculate_possible_iop m ≤ round1 (listMax m) := by
  have hne : m ≠ [] := by intro h; rw [h] at h3; simp at h3
  have hb := npMedian_bounds hne
  exact ⟨round1_mono hb.1, round1_mono hb.2⟩

theorem calculate_trimean_iop_bounds {m : List ℚ} (h3 : 3 ≤ m.length) :
    round1 (listMin m) ≤ calculate_trimean_iop m ∧
    calculate_trimean_iop m ≤ round1 (listMax m) := by
  have hne : m ≠ [] := by intro h; rw [h] at h3; simp at h3
  have h25 := npPercentile_bounds hne (by norm_num : (0:ℚ) ≤ 25) (by norm_num)
  have h75 := npPercentile_bounds hne (by norm_num : (0:ℚ) ≤ 75) (by norm_num)
  have hmed := npMedian_bounds hne
  rw [calculate_trimean_iop]
  constructor
  · exact round1_mono (by linarith [h25.1, h75.1, hmed.1])
  · exact round1_mono (by linarith [h25.2, h75.2, hmed.2])

theorem calculate_iqm_iop_bounds {m : List ℚ} (h3 : 3 ≤ m.length) :
    round1 (listMin m) ≤ calculate_iqm_iop m ∧
    calculate_iqm_iop m ≤ round1 (listMax m) := by
  have hne : m ≠ [] := by intro h; rw [h] at h3; simp at h3
  have hlen : (sortList m).length = m.length := sortList_length m
  simp only [calculate_iqm_iop]
  have hlpos : ¬ ((List.take ((3 * m.length + 3) / 4 - m.length / 4)
      (List.drop (m.length / 4) (sortList m))).length = 0) := by
    rw [List.length_take, List.length_drop, hlen]
    omega
  rw [if_neg hlpos]
  have hslne : (List.take ((3 * m.length + 3) / 4 - m.length / 4)
      (List.drop (m.length / 4) (sortList m))) ≠ [] := by
    intro h
    rw [h] at hlpos
    exact hlpos rfl
  have hmem : ∀ x ∈ (List.take ((3 * m.length + 3) / 4 - m.length / 4)
      (List.drop (m.length / 4) (sortList m))), x ∈ m := fun x hx =>
    mem_sortList.mp (List.mem_of_mem_drop (List.mem_of_mem_take hx))
  have hb := mean_bounds hslne (fun x hx => listMin_le_of_mem (hmem x hx))
    (fun x hx => le_listMax_of_mem (hmem x hx))
  exact ⟨round1_mono hb.1, round1_mono hb.2⟩

theorem calculate_winsorized_iop_bounds {m : List ℚ} (h3 : 3 ≤ m.length) :
    round1 (listMin m) ≤ calculate_winsorized_iop m ∧
    calculate_winsorized_iop m ≤ round1 (listMax m) := by
  have hne : m ≠ [] := by intro h; rw [h] at h3; simp at h3
  have hlen : (sortList m).length = m.length := sortList_length m
  rw [calculate_winsorized_iop, if_neg (by omega)]
  simp only []
  have h1 : (1 : ℕ) < (sortList m).length := by omega
  have h2 : m.length - 2 < (sortList m).length := by omega
  have hs1 : (sortList m).getD 1 0 ∈ m := mem_sortList.mp (getD_mem h1)
  have hs2 : (sortList m).getD (m.length - 2) 0 ∈ m := mem_sortList.mp (getD_mem h2)
  have hwlen : (((sortList m).set 0 ((sortList m).getD 1 0)).set (m.length - 1)
      ((sortList m).getD (m.length - 2) 0)).length = m.length := by
    rw [List.length_set, List.length_set, hlen]
  have hwne : (((sortList m).set 0 ((sortList m).getD 1 0)).set (m.length - 1)
      ((sortList m).getD (m.length - 2) 0)) ≠ [] :=
    List.length_pos.mp (by rw [hwlen]; omega)
  have hwmem : ∀ x ∈ (((sortList m).set 0 ((sortList m).getD 1 0)).set (m.length - 1)
      ((sortList m).getD (m.length - 2) 0)), listMin m ≤ x ∧ x ≤ listMax m := by
    intro x hx
    rcases List.mem_or_eq_of_mem_set hx with hx1 | rfl
    · rcases List.mem_or_eq_of_mem_set hx1 with hx2 | rfl
      · have hmm := mem_sortList.mp hx2
        exact ⟨listMin_le_of_mem hmm, le_listMax_of_mem hmm⟩
      · exact ⟨listMin_le_of_mem hs1, le_listMax_of_mem hs1⟩
    · exact ⟨listMin_le_of_mem hs2, le_listMax_of_mem hs2⟩
  have hb := mean_bounds hwne (fun x hx => (hwmem x hx).1) (fun x hx => (hwmem x hx).2)
  rw [hwlen] at hb
  exact ⟨round1_mono hb.1, round1_mono hb.2⟩

theorem weighted_sum_lower {m : List ℚ} {a : ℚ} {f : ℚ → ℚ}
    (hf : ∀ x ∈ m, 0 ≤ f x) (ha : ∀ x ∈ m, a ≤ x) :
    a * (m.map f).sum ≤ (m.map fun x => f x * x).sum := by
  induction m with
  | nil => simp
  | cons y t ih =>
      have h1 := hf y (List.mem_cons_self y t)
      have h2 := ha y (List.mem_cons_self y t)
      have h3 := ih (fun x hx => hf x (List.mem_cons_of_mem _ hx))
        (fun x hx => ha x (List.mem_cons_of_mem _ hx))
      simp only [List.map_cons, List.sum_cons]
      have h4 : f y * a ≤ f y * y := mul_le_mul_of_nonneg_left h2 h1
      nlinarith [h3, h4]

theorem weighted_sum_upper {m : List ℚ} {b : ℚ} {f : ℚ → ℚ}
    (hf : ∀ x ∈ m, 0 ≤ f x) (hb : ∀ x ∈ m, x ≤ b) :
    (m.map fun x => f x * x).sum ≤ b * (m.map f).sum := by
  induction m with
  | nil => simp
  | cons y t ih =>
      have h1 := hf y (List.mem_cons_self y t)
      have h2 := hb y (List.mem_cons_self y t)
      have h3 := ih (fun x hx => hf x (List.mem_cons_of_mem _ hx))
        (fun x hx => hb x (List.mem_cons_of_mem _ hx))
      simp only [List.map_cons, List.sum_cons]
      have h4 : f y * y ≤ f y * b := mul_le_mul_of_nonneg_left h2 h1
      nlinarith [h3, h4]

theorem weightList_pos {m : List ℚ} {w : ℚ} (hw : w ∈ weightList m) : 0 < w := by
  simp only [weightList, List.mem_map] at hw
  obtain ⟨y, -, rfl⟩ := hw
  positivity

theorem weightList_sum_pos {m : List ℚ} (hne : m ≠ []) : 0 < (weightList m).sum :=
  List.sum_pos _ (fun _ hw => weightList_pos hw) (by simpa [weightList] using hne)

theorem calculate_weighted_iop_bounds {m : List ℚ} (h3 : 3 ≤ m.length) :
    round1 (listMin m) ≤ calculate_weighted_iop m ∧
    calculate_weighted_iop m ≤ round1 (listMax m) := by
  have hne : m ≠ [] := by intro h; rw [h] at h3; simp at h3
  have hzip : List.zipWith (· * ·) (weightList m) m =
      m.map (fun x => (1 / (1 + |x - npMedian m|)) * x) := by
    rw [weightList, List.zipWith_map_left, List.zipWith_same]
  have hden := weightList_sum_pos hne
  have hf : ∀ x ∈ m, 0 ≤ 1 / (1 + |x - npMedian m|) := fun x _ => by positivity
  have hlow := weighted_sum_lower hf (fun x hx => listMin_le_of_mem hx)
  have hupp := weighted_sum_upper hf (fun x hx => le_listMax_of_mem hx)
  rw [calculate_weighted_iop, hzip]
  constructor
  · apply round1_mono
    rw [le_div_iff₀ hden, weightList]
    exact hlow
  · apply round1_mono
    rw [div_le_iff₀ hden, weightList]
    exact hupp

/-- Unfolding of the `interpret_iop` scan over the concrete clinical table. -/
theorem interpret_iop_eq_cases (v : ℚ) :
    interpret_iop v =
      (if 0 ≤ v ∧ v < 6 then "Severe Hypotony"
       else if 6 ≤ v ∧ v < 8 then "Moderate Hypotony"
       else if 8 ≤ v ∧ v < 10 then "Mild Hypotony"
       else if 10 ≤ v ∧ v < 21 then "Normal Range"
       else if 21 ≤ v ∧ v < 24 then "Borderline Elevated"
       else if 24 ≤ v ∧ v < 30 then "Elevated"
       else "Severely Elevated") := by
  simp only [interpret_iop, CLINICAL_RANGES, scanRanges]
  split_ifs <;> simp_all [INTERPRETATION_LABELS]

/-- C1: for every value `v ≥ 0`, `interpret_iop` returns the label of the unique
half-open clinical interval containing `v`, with seams at 6, 8, 10, 21, 24 and
30 mmHg and an open-ended top: every `v ≥ 30` (also `v ≥ 100`) is labelled
"Severely Elevated"; in particular 9.9 ↦ Mild Hypotony, 10.0 ↦ Normal Range,
20.999 ↦ Normal Range and 21.0 ↦ Borderline Elevated. -/
theorem interpret_iop_intervals (v : ℚ) (hv : 0 ≤ v) :
    interpret_iop v =
      (if v < 6 then "Severe Hypotony"
       else if v < 8 then "Moderate Hypotony"
       else if v < 10 then "Mild Hypotony"
       else if v < 21 then "Normal Range"
       else if v < 24 then "Borderline Elevated"
       else if v < 30 then "Elevated"
       else "Severely Elevated") ∧
    interpret_iop (99/10) = "Mild Hypotony" ∧
    interpret_iop 10 = "Normal Range" ∧
    interpret_iop (20999/1000) = "Normal Range" ∧
    interpret_iop 21 = "Borderline Elevated" := by
  refine ⟨?_, ?_, ?_, ?_, ?_⟩ <;> rw [interpret_iop_eq_cases]
  · split_ifs <;> simp_all
  all_goals norm_num

/-- Witness for C1 at `v = 15`. -/
theorem interpret_iop_intervals_witness :
    (0 : ℚ) ≤ 15 ∧
    (interpret_iop 15 =
      (if (15 : ℚ) < 6 then "Severe Hypotony"
       else if (15 : ℚ) < 8 then "Moderate Hypotony"
       else if (15 : ℚ) < 10 then "Mild Hypotony"
       else if (15 : ℚ) < 21 then "Normal Range"
       else if (15 : ℚ) < 24 then "Borderline Elevated"
       else if (15 : ℚ) < 30 then "Elevated"
       else "Severely Elevated") ∧
     interpret_iop (99/10) = "Mild Hypotony" ∧
     interpret_iop 10 = "Normal Range" ∧
     interpret_iop (20999/1000) = "Normal Range" ∧
     interpret_iop 21 = "Borderline Elevated") :=
  ⟨by norm_num, interpret_iop_intervals 15 (by norm_num)⟩

/-- C10: every strictly negative value fails every interval's lower-bound test,
so the scan falls through and `interpret_iop` returns "Severely Elevated". -/
theorem interpret_iop_negative (v : ℚ) (hv : v < 0) :
    interpret_iop v = "Severely Elevated" := by
  rw [interpret_iop_eq_cases]
  split_ifs <;> simp_all <;> linarith

/-- Witness for C10 at `v = -1`. -/
theorem interpret_iop_negative_witness :
    (-1 : ℚ) < 0 ∧ interpret_iop (-1) = "Severely Elevated" :=
  ⟨by norm_num, interpret_iop_negative (-1) (by norm_num)⟩

theorem round1_zero : round1 0 = 0 := by
  have h0 : roundHalfEven 0 = 0 := by
    rw [roundHalfEven_eq_cases]
    norm_num
  rw [round1, mul_zero, h0]
  norm_num

/-- C9: `calculate_all` is invariant under permutation of the measurement list:
the constructor stores a sorted copy, so the whole record depends only on the
multiset of values. -/
theorem calculate_all_perm_invariant (l l2 : List ℚ) (hp : l.Perm l2)
    (_h3 : 3 ≤ l.length) : calculate_all l = calculate_all l2 := by
  have hs : calcMeasurements l = calcMeasurements l2 :=
    List.eq_of_perm_of_sorted
      ((sortList_perm l).trans (hp.trans (sortList_perm l2).symm))
      (sortList_sorted l) (sortList_sorted l2)
  rw [calculate_all, calculate_all, hs]

/-- Witness for C9: a concrete permutation of a 3-sample. -/
theorem calculate_all_perm_invariant_witness :
    ([12, 15, 13] : List ℚ).Perm [13, 12, 15] ∧ 3 ≤ ([12, 15, 13] : List ℚ).length ∧
    calculate_all [12, 15, 13] = calculate_all [13, 12, 15] :=
  ⟨by decide, by decide, calculate_all_perm_invariant _ _ (by decide) (by decide)⟩

/-- C8: every consistency weight of the Weighted IOP estimator has denominator
`1 + |x − median| ≥ 1`, hence is strictly positive; the weight sum is strictly
positive, so the final division never divides by zero. -/
theorem weighted_weights_positive (m : List ℚ) (h3 : 3 ≤ m.length) :
    (∀ x ∈ m, 1 ≤ 1 + |x - npMedian m|) ∧
    (∀ w ∈ weightList m, 0 < w) ∧
    0 < (weightList m).sum ∧ (weightList m).sum ≠ 0 := by
  have hne : m ≠ [] := by intro h; rw [h] at h3; simp at h3
  refine ⟨fun x _ => by have := abs_nonneg (x - npMedian m); linarith,
    fun _ hw => weightList_pos hw,
    weightList_sum_pos hne, ne_of_gt (weightList_sum_pos hne)⟩

/-- Witness for C8 at the sample `[10, 11, 12]`. -/
theorem weighted_weights_positive_witness :
    3 ≤ ([10, 11, 12] : List ℚ).length ∧
    ((∀ x ∈ ([10, 11, 12] : List ℚ), 1 ≤ 1 + |x - npMedian [10, 11, 12]|) ∧
     (∀ w ∈ weightList [10, 11, 12], 0 < w) ∧
     0 < (weightList [10, 11, 12]).sum ∧ (weightList [10, 11, 12]).sum ≠ 0) :=
  ⟨by decide, weighted_weights_positive [10, 11, 12] (by decide)⟩

/-- C5 (amended): for a 3-element sample the unrounded trimmed mean equals the
single middle value of the sorted data exactly (divisor `n − 2 = 1`), and the
Safe IOP output is that middle value rounded to one decimal. -/
theorem safe_iop_three_rounded_middle (l : List ℚ) (h : l.length = 3) :
    ((calcMeasurements l).sum - listMin (calcMeasurements l) -
        listMax (calcMeasurements l)) /
      (((calcMeasurements l).length : ℚ) - 2) = (calcMeasurements l).getD 1 0 ∧
    calculate_safe_iop (calcMeasurements l) =
      round1 ((calcMeasurements l).getD 1 0) := by
  have hlen : (calcMeasurements l).length = 3 := by
    rw [calcMeasurements, sortList_length, h]
  obtain ⟨a, b, c, habc⟩ := List.length_eq_three.mp hlen
  have hsorted : ([a, b, c] : List ℚ).Sorted (· ≤ ·) := by
    rw [← habc]
    exact sortList_sorted l
  have h1 : a ≤ b := (List.sorted_cons.mp hsorted).1 b (by simp)
  have h2 : a ≤ c := (List.sorted_cons.mp hsorted).1 c (by simp)
  have h3 : b ≤ c := (List.sorted_cons.mp (List.sorted_cons.mp hsorted).2).1 c (by simp)
  have hmin : listMin [a, b, c] = a := by
    have e : listMin [a, b, c] = min a (min b c) := rfl
    rw [e, min_eq_left (le_min h1 h2)]
  have hmax : listMax [a, b, c] = c := by
    have e : listMax [a, b, c] = max a (max b c) := rfl
    rw [e, max_eq_right h3, max_eq_right h2]
  have hmid : (([a, b, c] : List ℚ).sum - listMin [a, b, c] - listMax [a, b, c]) /
      ((([a, b, c] : List ℚ).length : ℚ) - 2) = ([a, b, c] : List ℚ).getD 1 0 := by
    rw [hmin, hmax]
    simp [List.sum_cons]
    ring
  rw [habc]
  refine ⟨hmid, ?_⟩
  rw [calculate_safe_iop, if_neg (by simp)]
  exact congrArg round1 hmid

/-- Witness for C5 at the sample `[14, 12, 13]`. -/
theorem safe_iop_three_rounded_middle_witness :
    ([14, 12, 13] : List ℚ).length = 3 ∧
    (((calcMeasurements [14, 12, 13]).sum - listMin (calcMeasurements [14, 12, 13]) -
        listMax (calcMeasurements [14, 12, 13])) /
      (((calcMeasurements [14, 12, 13]).length : ℚ) - 2) =
        (calcMeasurements [14, 12, 13]).getD 1 0 ∧
     calculate_safe_iop (calcMeasurements [14, 12, 13]) =
       round1 ((calcMeasurements [14, 12, 13]).getD 1 0)) :=
  ⟨by decide, safe_iop_three_rounded_middle [14, 12, 13] (by decide)⟩

set_option maxRecDepth 20000 in
/-- Counterexample for C5 as literally stated: with middle value 12.34 the Safe
IOP output is 12.3, not the middle value itself — the output is rounded. -/
theorem safe_iop_three_exact_counterexample :
    (calcMeasurements [12, 1234/100, 13]).getD 1 0 = 1234/100 ∧
    calculate_safe_iop (calcMeasurements [12, 1234/100, 13]) = 123/10 ∧
    calculate_safe_iop (calcMeasurements [12, 1234/100, 13]) ≠ 1234/100 :=
  of_decide_eq_true (by with_unfolding_all rfl)

set_option maxRecDepth 40000 in
/-- C6 (amended): on the input text `"12, 14, 13, 15, 12"` the Validator
returns the values in input order; the calculator's constructor sorts them to
`[12,12,13,14,15]`, and the pipeline computes Safe IOP 13.0, Mean 13.2,
Possible 13.0, Clinical 13.5, variability 3.0, whose confidence note is the
"good" tier. -/
theorem round_trip_pipeline :
    validate_measurements "12, 14, 13, 15, 12" = .ok [12, 14, 13, 15, 12] ∧
    calcMeasurements [12, 14, 13, 15, 12] = [12, 12, 13, 14, 15] ∧
    (calculate_all [12, 14, 13, 15, 12]).safe_iop = 13 ∧
    (calculate_all [12, 14, 13, 15, 12]).mean_iop = 132/10 ∧
    (calculate_all [12, 14, 13, 15, 12]).possible_iop = 13 ∧
    (calculate_all [12, 14, 13, 15, 12]).clinical_iop = 27/2 ∧
    (calculate_all [12, 14, 13, 15, 12]).variability = 3 ∧
    get_confidence_note ((calculate_all [12, 14, 13, 15, 12]).variability) =
      "Good measurement consistency - Moderate confidence" :=
  ⟨by rfl, of_decide_eq_true (by with_unfolding_all rfl)⟩

/-- Counterexample for C6 as literally stated: the Validator returns the
values in input order, not sorted; sorting happens in the calculator. -/
theorem round_trip_sorted_validator_counterexample :
    validate_measurements "12, 14, 13, 15, 12" = .ok [12, 14, 13, 15, 12] ∧
    ([12, 14, 13, 15, 12] : List ℚ) ≠ [12, 12, 13, 14, 15] :=
  ⟨by rfl, by decide⟩

theorem get_standard_deviation_zero {m : List ℚ}
    (h : sampleVariance m = 0) : get_standard_deviation m = 0 := by
  have hR : roundHalfEvenR 0 = 0 := by
    rw [roundHalfEvenR]
    norm_num
  rw [get_standard_deviation, h]
  norm_num [Real.sqrt_zero, hR]

/-- C4 (amended): every one of the eight estimator outputs of `calculate_all`
lies between the record's own `min_iop` and `max_iop` fields (the rounded
extremes): each unrounded estimator value lies within the unrounded extremes,
and rounding all three to one decimal preserves the ordering. -/
theorem calculate_all_within_rounded_extremes (l : List ℚ) (h3 : 3 ≤ l.length)
    (_hrange : ∀ x ∈ l, 0 ≤ x ∧ x ≤ 100) :
    ((calculate_all l).min_iop ≤ (calculate_all l).safe_iop ∧
      (calculate_all l).safe_iop ≤ (calculate_all l).max_iop) ∧
    ((calculate_all l).min_iop ≤ (calculate_all l).possible_iop ∧
      (calculate_all l).possible_iop ≤ (calculate_all l).max_iop) ∧
    ((calculate_all l).min_iop ≤ (calculate_all l).clinical_iop ∧
      (calculate_all l).clinical_iop ≤ (calculate_all l).max_iop) ∧
    ((calculate_all l).min_iop ≤ (calculate_all l).mean_iop ∧
      (calculate_all l).mean_iop ≤ (calculate_all l).max_iop) ∧
    ((calculate_all l).min_iop ≤ (calculate_all l).trimean_iop ∧
      (calculate_all l).trimean_iop ≤ (calculate_all l).max_iop) ∧
    ((calculate_all l).min_iop ≤ (calculate_all l).iqm_iop ∧
      (calculate_all l).iqm_iop ≤ (calculate_all l).max_iop) ∧
    ((calculate_all l).min_iop ≤ (calculate_all l).winsorized_iop ∧
      (calculate_all l).winsorized_iop ≤ (calculate_all l).max_iop) ∧
    ((calculate_all l).min_iop ≤ (calculate_all l).weighted_iop ∧
      (calculate_all l).weighted_iop ≤ (calculate_all l).max_iop) := by
  have hs3 : 3 ≤ (calcMeasurements l).length := by
    rw [calcMeasurements, sortList_length]
    exact h3
  have e1 := calculate_safe_iop_bounds hs3
  have e2 := calculate_possible_iop_bounds hs3
  have e3 := calculate_clinical_iop_bounds hs3
  have e4 := calculate_mean_iop_bounds hs3
  have e5 := calculate_trimean_iop_bounds hs3
  have e6 := calculate_iqm_iop_bounds hs3
  have e7 := calculate_winsorized_iop_bounds hs3
  have e8 := calculate_weighted_iop_bounds hs3
  simp only [calculate_all, get_range]
  exact ⟨e1, e2, e3, e4, e5, e6, e7, e8⟩

/-- Witness for C4 at the sample `[10, 12, 14]`. -/
theorem calculate_all_within_rounded_extremes_witness :
    3 ≤ ([10, 12, 14] : List ℚ).length ∧
    (∀ x ∈ ([10, 12, 14] : List ℚ), 0 ≤ x ∧ x ≤ 100) ∧
    (((calculate_all [10, 12, 14]).min_iop ≤ (calculate_all [10, 12, 14]).safe_iop ∧
      (calculate_all [10, 12, 14]).safe_iop ≤ (calculate_all [10, 12, 14]).max_iop) ∧
    ((calculate_all [10, 12, 14]).min_iop ≤ (calculate_all [10, 12, 14]).possible_iop ∧
      (calculate_all [10, 12, 14]).possible_iop ≤ (calculate_all [10, 12, 14]).max_iop) ∧
    ((calculate_all [10, 12, 14]).min_iop ≤ (calculate_all [10, 12, 14]).clinical_iop ∧
      (calculate_all [10, 12, 14]).clinical_iop ≤ (calculate_all [10, 12, 14]).max_iop) ∧
    ((calculate_all [10, 12, 14]).min_iop ≤ (calculate_all [10, 12, 14]).mean_iop ∧
      (calculate_all [10, 12, 14]).mean_iop ≤ (calculate_all [10, 12, 14]).max_iop) ∧
    ((calculate_all [10, 12, 14]).min_iop ≤ (calculate_all [10, 12, 14]).trimean_iop ∧
      (calculate_all [10, 12, 14]).trimean_iop ≤ (calculate_all [10, 12, 14]).max_iop) ∧
    ((calculate_all [10, 12, 14]).min_iop ≤ (calculate_all [10, 12, 14]).iqm_iop ∧
      (calculate_all [10, 12, 14]).iqm_iop ≤ (calculate_all [10, 12, 14]).max_iop) ∧
    ((calculate_all [10, 12, 14]).min_iop ≤ (calculate_all [10, 12, 14]).winsorized_iop ∧
      (calculate_all [10, 12, 14]).winsorized_iop ≤ (calculate_all [10, 12, 14]).max_iop) ∧
    ((calculate_all [10, 12, 14]).min_iop ≤ (calculate_all [10, 12, 14]).weighted_iop ∧
      (calculate_all [10, 12, 14]).weighted_iop ≤ (calculate_all [10, 12, 14]).max_iop)) :=
  ⟨by decide, by decide,
    calculate_all_within_rounded_extremes [10, 12, 14] (by decide) (by decide)⟩

set_option maxRecDepth 20000 in
/-- Counterexample for C4 as literally stated: for the valid constant sample
`[12.34, 12.34, 12.34]` the rounded mean output is 12.3, strictly below the
unrounded sample minimum 12.34. -/
theorem calculate_all_unrounded_extremes_counterexample :
    3 ≤ ([1234/100, 1234/100, 1234/100] : List ℚ).length ∧
    (∀ x ∈ ([1234/100, 1234/100, 1234/100] : List ℚ), 0 ≤ x ∧ x ≤ 100) ∧
    (calculate_all [1234/100, 1234/100, 1234/100]).mean_iop <
      listMin [1234/100, 1234/100, 1234/100] :=
  of_decide_eq_true (by with_unfolding_all rfl)

/-- C7 (amended): on a constant sample `replicate n v` with `n ≥ 3` and
`v ∈ [0, 100]`, every one of the eight estimators returns `round1 v`
(which equals `v` exactly whenever `v` is a multiple of 0.1), the
variability is 0 and the sample standard deviation is 0. -/
theorem estimators_constant_sample (n : ℕ) (v : ℚ) (h3 : 3 ≤ n)
    (_h0 : 0 ≤ v) (_h100 : v ≤ 100) :
    (calculate_all (List.replicate n v)).safe_iop = round1 v ∧
    (calculate_all (List.replicate n v)).possible_iop = round1 v ∧
    (calculate_all (List.replicate n v)).clinical_iop = round1 v ∧
    (calculate_all (List.replicate n v)).mean_iop = round1 v ∧
    (calculate_all (List.replicate n v)).trimean_iop = round1 v ∧
    (calculate_all (List.replicate n v)).iqm_iop = round1 v ∧
    (calculate_all (List.replicate n v)).winsorized_iop = round1 v ∧
    (calculate_all (List.replicate n v)).weighted_iop = round1 v ∧
    (calculate_all (List.replicate n v)).variability = 0 ∧
    (calculate_all (List.replicate n v)).std_dev = 0 := by
  have hlen : (List.replicate n v).length = n := List.length_replicate n v
  have hne : (List.replicate n v) ≠ [] := by
    intro h
    rw [h] at hlen
    simp at hlen
    omega
  have hs3 : 3 ≤ (calcMeasurements (List.replicate n v)).length := by
    rw [calcMeasurements, sortList_length, hlen]
    exact h3
  have hvmem : v ∈ List.replicate n v := List.mem_replicate.mpr ⟨by omega, rfl⟩
  have hmin : listMin (List.replicate n v) = v :=
    listMin_eq_of_mem_of_le hvmem
      (fun x hx => le_of_eq (List.eq_of_mem_replicate hx).symm)
  have hmax : listMax (List.replicate n v) = v :=
    listMax_eq_of_mem_of_le hvmem
      (fun x hx => le_of_eq (List.eq_of_mem_replicate hx))
  have hminS : listMin (calcMeasurements (List.replicate n v)) = v := by
    rw [calcMeasurements, listMin_sortList hne, hmin]
  have hmaxS : listMax (calcMeasurements (List.replicate n v)) = v := by
    rw [calcMeasurements, listMax_sortList hne, hmax]
  have e1 := calculate_safe_iop_bounds hs3
  have e2 := calculate_possible_iop_bounds hs3
  have e3 := calculate_clinical_iop_bounds hs3
  have e4 := calculate_mean_iop_bounds hs3
  have e5 := calculate_trimean_iop_bounds hs3
  have e6 := calculate_iqm_iop_bounds hs3
  have e7 := calculate_winsorized_iop_bounds hs3
  have e8 := calculate_weighted_iop_bounds hs3
  rw [hminS, hmaxS] at e1 e2 e3 e4 e5 e6 e7 e8
  have hvar : sampleVariance (calcMeasurements (List.replicate n v)) = 0 := by
    have hsum : (calcMeasurements (List.replicate n v)).sum = (n : ℚ) * v := by
      rw [calcMeasurements, sortList_sum, List.sum_replicate, nsmul_eq_mul]
    have hlen2 : (calcMeasurements (List.replicate n v)).length = n := by
      rw [calcMeasurements, sortList_length, hlen]
    have hn0 : (n : ℚ) ≠ 0 := by
      have : (3 : ℚ) ≤ (n : ℚ) := by exact_mod_cast h3
      linarith
    rw [sampleVariance, hsum, hlen2]
    have hzero : ∀ y ∈ (calcMeasurements (List.replicate n v)).map
        (fun x => (x - (n : ℚ) * v / (n : ℚ)) ^ 2), y = 0 := by
      intro y hy
      obtain ⟨x, hx, rfl⟩ := List.mem_map.mp hy
      have hxv : x = v := by
        rw [calcMeasurements] at hx
        exact List.eq_of_mem_replicate (mem_sortList.mp hx)
      have hmean : (n : ℚ) * v / (n : ℚ) = v := by
        field_simp
      rw [hxv, hmean, sub_self]
      ring
    rw [List.sum_eq_zero hzero, zero_div]
  simp only [calculate_all, get_range, get_variability]
  refine ⟨le_antisymm e1.2 e1.1, le_antisymm e2.2 e2.1, le_antisymm e3.2 e3.1,
    le_antisymm e4.2 e4.1, le_antisymm e5.2 e5.1, le_antisymm e6.2 e6.1,
    le_antisymm e7.2 e7.1, le_antisymm e8.2 e8.1, ?_, ?_⟩
  · rw [hminS, hmaxS, sub_self, round1_zero]
  · exact get_standard_deviation_zero hvar

/-- Witness for C7 at `n = 4`, `v = 14`. -/
theorem estimators_constant_sample_witness :
    3 ≤ 4 ∧ (0 : ℚ) ≤ 14 ∧ (14 : ℚ) ≤ 100 ∧
    ((calculate_all (List.replicate 4 (14 : ℚ))).safe_iop = round1 14 ∧
     (calculate_all (List.replicate 4 (14 : ℚ))).possible_iop = round1 14 ∧
     (calculate_all (List.replicate 4 (14 : ℚ))).clinical_iop = round1 14 ∧
     (calculate_all (List.replicate 4 (14 : ℚ))).mean_iop = round1 14 ∧
     (calculate_all (List.replicate 4 (14 : ℚ))).trimean_iop = round1 14 ∧
     (calculate_all (List.replicate 4 (14 : ℚ))).iqm_iop = round1 14 ∧
     (calculate_all (List.replicate 4 (14 : ℚ))).winsorized_iop = round1 14 ∧
     (calculate_all (List.replicate 4 (14 : ℚ))).weighted_iop = round1 14 ∧
     (calculate_all (List.replicate 4 (14 : ℚ))).variability = 0 ∧
     (calculate_all (List.replicate 4 (14 : ℚ))).std_dev = 0) :=
  ⟨by norm_num, by norm_num, by norm_num,
    estimators_constant_sample 4 14 (by norm_num) (by norm_num) (by norm_num)⟩

set_option maxRecDepth 20000 in
/-- Counterexample for C7 as literally stated: for the constant value 12.34
the estimators return round(12.34, 1) = 12.3, not the value itself. -/
theorem estimators_constant_exact_counterexample :
    3 ≤ (List.replicate 3 (1234/100 : ℚ)).length ∧
    (0 : ℚ) ≤ 1234/100 ∧ (1234/100 : ℚ) ≤ 100 ∧
    (calculate_all (List.replicate 3 (1234/100 : ℚ))).mean_iop = 123/10 ∧
    (calculate_all (List.replicate 3 (1234/100 : ℚ))).mean_iop ≠ 1234/100 :=
  of_decide_eq_true (by with_unfolding_all rfl)

theorem pyStrip_eq_empty_of_all_space {cs : List Char}
    (h : ∀ c ∈ cs, isSpaceChar c) : pyStrip (String.mk cs) = "" := by
  have h1 : cs.dropWhile isSpaceChar = [] := List.dropWhile_eq_nil_iff.mpr h
  show String.mk ((((String.mk cs).toList.dropWhile isSpaceChar).reverse.dropWhile
    isSpaceChar).reverse) = ""
  have h2 : (String.mk cs).toList = cs := rfl
  rw [h2, h1]
  rfl

theorem all_space_of_pyStrip_empty {s : String} (h : pyStrip s = "") :
    ∀ c ∈ s.toList, isSpaceChar c := by
  have h2 : ((s.toList.dropWhile isSpaceChar).reverse.dropWhile isSpaceChar).reverse
      = [] := congrArg String.toList h
  have h3 : (s.toList.dropWhile isSpaceChar).reverse.dropWhile isSpaceChar = [] :=
    List.reverse_eq_nil_iff.mp h2
  have h5 : ∀ c ∈ s.toList.dropWhile isSpaceChar, isSpaceChar c := fun c hc =>
    List.dropWhile_eq_nil_iff.mp h3 c (List.mem_reverse.mpr hc)
  intro c hc
  rw [← List.takeWhile_append_dropWhile (p := isSpaceChar) (l := s.toList)] at hc
  rcases List.mem_append.mp hc with h6 | h6
  · exact List.mem_takeWhile_imp h6
  · exact h5 c h6

theorem splitCommaAux_all_space {cs : List Char} :
    ∀ {acc : List Char}, (∀ c ∈ cs, isSpaceChar c) → (∀ c ∈ acc, isSpaceChar c) →
    ∀ piece ∈ splitCommaAux cs acc, ∀ c ∈ piece, isSpaceChar c := by
  induction cs with
  | nil =>
      intro acc _ hacc piece hp c hc
      rw [splitCommaAux] at hp
      rcases List.mem_singleton.mp hp with rfl
      exact hacc c (List.mem_reverse.mp hc)
  | cons d cs ih =>
      intro acc hcs hacc piece hp
      rw [splitCommaAux] at hp
      have hd : isSpaceChar d := hcs d (List.mem_cons_self d cs)
      have hdc : ¬ (d = ',') := by
        intro h
        rw [h] at hd
        simp [isSpaceChar] at hd
      rw [if_neg hdc] at hp
      exact ih (fun c hc => hcs c (List.mem_cons_of_mem _ hc))
        (fun c hc => by
          rcases List.mem_cons.mp hc with rfl | hc2
          exacts [hd, hacc c hc2]) piece hp

theorem iopTokens_empty_of_all_space {s : String}
    (h : ∀ c ∈ s.toList, isSpaceChar c) : iopTokens s = [] := by
  rw [iopTokens]
  rw [List.filter_eq_nil_iff]
  intro t ht
  simp only [List.mem_map, pySplitComma] at ht
  obtain ⟨t0, ht0, rfl⟩ := ht
  obtain ⟨piece, hpiece, rfl⟩ := ht0
  have hall := splitCommaAux_all_space h (by intro c hc; cases hc) piece hpiece
  have hempty := pyStrip_eq_empty_of_all_space hall
  simp [hempty]

theorem iopTokens_empty_of_blank {s : String}
    (h : s = "" ∨ pyStrip s = "") : iopTokens s = [] := by
  rcases h with rfl | h
  · exact iopTokens_empty_of_all_space (by intro c hc; cases hc)
  · exact iopTokens_empty_of_all_space (all_space_of_pyStrip_empty h)

theorem parse_iop_input_ok {s : String} {l : List ℚ}
    (h : parse_iop_input s = .ok l) : floatList (iopTokens s) = some l := by
  rw [parse_iop_input] at h
  split_ifs at h with hcond
  split at h
  · exact Except.noConfusion h
  · rename_i vs hfl
    split_ifs at h with hv
    split at h
    · exact Except.noConfusion h
    · injection h with h2
      rw [hfl, h2]

theorem validate_measurements_ok_inv {s : String} {l : List ℚ}
    (h : validate_measurements s = .ok l) : floatList (iopTokens s) = some l := by
  rw [validate_measurements] at h
  split at h
  · exact Except.noConfusion h
  · split at h
    · exact Except.noConfusion h
    · injection h with h2
      rw [← h2]
      exact parse_iop_input_ok (by assumption)

/-- C2 (amended): on success the Validator returns the parsed values in their
original input order (the token-wise conversion of the input), not sorted;
the ascending sort happens afterwards in the calculator constructor, whose
stored copy is a sorted permutation of the validated values. -/
theorem validate_measurements_output_order (s : String) (l : List ℚ)
    (h : validate_measurements s = .ok l) :
    floatList (iopTokens s) = some l ∧
    (calcMeasurements l).Sorted (· ≤ ·) ∧ (calcMeasurements l).Perm l :=
  ⟨validate_measurements_ok_inv h, sortList_sorted l, sortList_perm l⟩

/-- Witness for C2 at the input `"2, 1, 3"`. -/
theorem validate_measurements_output_order_witness :
    validate_measurements "2, 1, 3" = .ok [2, 1, 3] ∧
    (floatList (iopTokens "2, 1, 3") = some [2, 1, 3] ∧
     (calcMeasurements [2, 1, 3]).Sorted (· ≤ ·) ∧
     (calcMeasurements [2, 1, 3]).Perm [2, 1, 3]) :=
  ⟨by rfl, validate_measurements_output_order "2, 1, 3" [2, 1, 3] (by rfl)⟩

/-- Counterexample for C2 as literally stated: the successfully validated
input `"2, 1, 3"` is returned as `[2, 1, 3]`, which is not sorted ascending. -/
theorem validate_measurements_unsorted_counterexample :
    validate_measurements "2, 1, 3" = .ok [2, 1, 3] ∧
    ¬ ([2, 1, 3] : List ℚ).Sorted (· ≤ ·) :=
  ⟨by rfl, by decide⟩

theorem floatListFull_isSome_iff {ts : List String} :
    (floatListFull ts).isSome ↔ ∀ t ∈ ts, (pyFloatFull t).isSome := by
  induction ts with
  | nil => simp [floatListFull]
  | cons t ts ih =>
      rw [floatListFull]
      cases hp : pyFloatFull t <;> cases hf : floatListFull ts <;> simp_all

theorem floatListFull_eq_none_of_bad {ts : List String} {t : String}
    (ht : t ∈ ts) (hbad : pyFloatFull t = none) : floatListFull ts = none := by
  rw [← Option.not_isSome_iff_eq_none]
  intro hs
  have := floatListFull_isSome_iff.mp hs t ht
  rw [hbad] at this
  simp at this

theorem floatListFull_of_forall_isSome {ts : List String}
    (h : ∀ t ∈ ts, (pyFloatFull t).isSome) : ∃ vs, floatListFull ts = some vs :=
  Option.isSome_iff_exists.mp (floatListFull_isSome_iff.mpr h)

theorem floatListFull_length {ts : List String} {vs : List PyVal}
    (h : floatListFull ts = some vs) : vs.length = ts.length := by
  induction ts generalizing vs with
  | nil =>
      rw [floatListFull] at h
      injection h with h2
      rw [← h2]
      rfl
  | cons t ts ih =>
      rw [floatListFull] at h
      cases hp : pyFloatFull t <;> rw [hp] at h
      · cases h
      · cases hf : floatListFull ts <;> rw [hf] at h
        · cases h
        · injection h with h2
          rw [← h2, List.length_cons, List.length_cons, ih hf]

theorem floatListFull_mem {ts : List String} {vs : List PyVal}
    (h : floatListFull ts = some vs) {v : PyVal} (hv : v ∈ vs) :
    ∃ t ∈ ts, pyFloatFull t = some v := by
  induction ts generalizing vs with
  | nil =>
      rw [floatListFull] at h
      injection h with h2
      rw [← h2] at hv
      cases hv
  | cons t ts ih =>
      rw [floatListFull] at h
      cases hp : pyFloatFull t <;> rw [hp] at h
      · cases h
      · cases hf : floatListFull ts <;> rw [hf] at h
        · cases h
        · injection h with h2
          rw [← h2] at hv
          rcases List.mem_cons.mp hv with rfl | hv2
          · exact ⟨t, List.mem_cons_self t ts, hp⟩
          · obtain ⟨u, hu, hpu⟩ := ih hf hv2
            exact ⟨u, List.mem_cons_of_mem _ hu, hpu⟩

theorem floatListFull_forall {ts : List String} {vs : List PyVal}
    (h : floatListFull ts = some vs) {t : String} (ht : t ∈ ts) :
    ∃ v ∈ vs, pyFloatFull t = some v := by
  induction ts generalizing vs with
  | nil => cases ht
  | cons u ts ih =>
      rw [floatListFull] at h
      cases hp : pyFloatFull u <;> rw [hp] at h
      · cases h
      · cases hf : floatListFull ts <;> rw [hf] at h
        · cases h
        · injection h with h2
          rcases List.mem_cons.mp ht with rfl | ht2
          · exact ⟨_, by rw [← h2]; exact List.mem_cons_self _ _, hp⟩
          · obtain ⟨v, hv, hpv⟩ := ih hf ht2
            exact ⟨v, by rw [← h2]; exact List.mem_cons_of_mem _ hv, hpv⟩

theorem validate_full_of_parse_error {s : String} {e : IOPError}
    (h : parse_iop_input_full s = .error e) :
    validate_measurements_full s = .error e := by
  rw [validate_measurements_full, h]

theorem parse_full_error_of_empty_tokens {s : String} (h : iopTokens s = []) :
    ∃ e, parse_iop_input_full s = .error (.parseError e) := by
  by_cases hcond : s = "" ∨ pyStrip s = ""
  · exact ⟨_, by rw [parse_iop_input_full, if_pos hcond]⟩
  · refine ⟨"No valid values found in input", ?_⟩
    rw [parse_iop_input_full, if_neg hcond, h]
    rfl

theorem parse_full_error_of_bad_token {s : String} {t : String}
    (ht : t ∈ iopTokens s) (hbad : pyFloatFull t = none) :
    ∃ e, parse_iop_input_full s = .error (.parseError e) := by
  by_cases hcond : s = "" ∨ pyStrip s = ""
  · exact ⟨_, by rw [parse_iop_input_full, if_pos hcond]⟩
  · refine ⟨"Invalid number format. Use comma-separated numeric values.", ?_⟩
    rw [parse_iop_input_full, if_neg hcond, floatListFull_eq_none_of_bad ht hbad]

theorem parse_full_error_of_out_of_range {s : String}
    (hall : ∀ t ∈ iopTokens s, (pyFloatFull t).isSome)
    (hbad : ∃ t ∈ iopTokens s, ∃ v, pyFloatFull t = some v ∧
      (pyValLt v MIN_IOP_VALUE = true ∨ pyValGt v MAX_IOP_VALUE = true)) :
    ∃ e, parse_iop_input_full s = .error (.rangeError e) := by
  obtain ⟨vs, hvs⟩ := floatListFull_of_forall_isSome hall
  obtain ⟨t, ht, v, hpv, hvbad⟩ := hbad
  have hne : iopTokens s ≠ [] := List.ne_nil_of_mem ht
  have hvne : vs ≠ [] := by
    intro h0
    apply hne
    have hl := floatListFull_length hvs
    rw [h0] at hl
    exact List.length_eq_zero.mp hl.symm
  obtain ⟨v2, hv2, hpv2⟩ := floatListFull_forall hvs ht
  have hveq : v = v2 := by
    rw [hpv] at hpv2
    injection hpv2
  have hfind : (vs.find? (fun v => pyValLt v MIN_IOP_VALUE ||
      pyValGt v MAX_IOP_VALUE)).isSome := by
    rw [List.find?_isSome]
    refine ⟨v2, hv2, ?_⟩
    simp only [Bool.or_eq_true]
    rw [← hveq]
    exact hvbad
  obtain ⟨w, hw⟩ := Option.isSome_iff_exists.mp hfind
  have hcond : ¬(s = "" ∨ pyStrip s = "") := fun hc => hne (iopTokens_empty_of_blank hc)
  refine ⟨"IOP value is out of acceptable range (0-100 mmHg)", ?_⟩
  rw [parse_iop_input_full, if_neg hcond]
  simp only [hvs]
  rw [if_neg hvne]
  simp only [hw]

theorem parse_full_ok_spec {s : String}
    (hall : ∀ t ∈ iopTokens s, (pyFloatFull t).isSome)
    (hrange : ∀ t ∈ iopTokens s, ∀ v, pyFloatFull t = some v →
      pyValLt v MIN_IOP_VALUE = false ∧ pyValGt v MAX_IOP_VALUE = false)
    (hne : iopTokens s ≠ []) :
    ∃ vs, parse_iop_input_full s = .ok vs ∧ floatListFull (iopTokens s) = some vs := by
  obtain ⟨vs, hvs⟩ := floatListFull_of_forall_isSome hall
  have hvne : vs ≠ [] := by
    intro h0
    apply hne
    have hl := floatListFull_length hvs
    rw [h0] at hl
    exact List.length_eq_zero.mp hl.symm
  have hfind : vs.find? (fun v => pyValLt v MIN_IOP_VALUE ||
      pyValGt v MAX_IOP_VALUE) = none := by
    rw [List.find?_eq_none]
    intro x hx
    obtain ⟨t, ht, hpt⟩ := floatListFull_mem hvs hx
    have hr := hrange t ht x hpt
    simp [hr.1, hr.2]
  have hcond : ¬(s = "" ∨ pyStrip s = "") := fun hc => hne (iopTokens_empty_of_blank hc)
  refine ⟨vs, ?_, hvs⟩
  rw [parse_iop_input_full, if_neg hcond]
  simp only [hvs]
  rw [if_neg hvne]
  simp only [hfind]

theorem validate_full_insufficient {s : String}
    (hall : ∀ t ∈ iopTokens s, (pyFloatFull t).isSome)
    (hrange : ∀ t ∈ iopTokens s, ∀ v, pyFloatFull t = some v →
      pyValLt v MIN_IOP_VALUE = false ∧ pyValGt v MAX_IOP_VALUE = false)
    (hne : iopTokens s ≠ []) (hlen : (iopTokens s).length < 3) :
    ∃ e, validate_measurements_full s = .error (.insufficientDataError e) := by
  obtain ⟨vs, hparse, hfl⟩ := parse_full_ok_spec hall hrange hne
  have hvl : vs.length < MIN_MEASUREMENTS := by
    show vs.length < 3
    rw [floatListFull_length hfl]
    exact hlen
  refine ⟨"At least 3 measurements are required for robust estimation", ?_⟩
  rw [validate_measurements_full]
  simp only [hparse]
  rw [validate_measurement_count_full, if_pos hvl]

theorem validate_full_ok_of_enough {s : String}
    (hall : ∀ t ∈ iopTokens s, (pyFloatFull t).isSome)
    (hrange : ∀ t ∈ iopTokens s, ∀ v, pyFloatFull t = some v →
      pyValLt v MIN_IOP_VALUE = false ∧ pyValGt v MAX_IOP_VALUE = false)
    (hlen : 3 ≤ (iopTokens s).length) :
    ∃ vs, validate_measurements_full s = .ok vs := by
  have hne : iopTokens s ≠ [] := by
    intro h
    rw [h] at hlen
    simp at hlen
  obtain ⟨vs, hparse, hfl⟩ := parse_full_ok_spec hall hrange hne
  have hvl : ¬ (vs.length < MIN_MEASUREMENTS) := by
    show ¬ (vs.length < 3)
    rw [floatListFull_length hfl]
    omega
  refine ⟨vs, ?_⟩
  rw [validate_measurements_full]
  simp only [hparse]
  rw [validate_measurement_count_full, if_neg hvl]

/-- Counterexample for C3 as literally stated: the program's `float()`
accepts "nan", and NaN passes the range check (both comparisons are false),
so the input "nan, 1, 2, 3" validates successfully although its first token
is not a valid decimal number; likewise "inf, 1, 2" fails with `RangeError`,
not `ParseError`. -/
theorem validate_full_taxonomy_counterexample :
    pyFloat "nan" = none ∧ "nan" ∈ iopTokens "nan, 1, 2, 3" ∧
    validate_measurements_full "nan, 1, 2, 3" =
      .ok [PyVal.nan, PyVal.finite 1, PyVal.finite 2, PyVal.finite 3] ∧
    pyFloat "inf" = none ∧ "inf" ∈ iopTokens "inf, 1, 2" ∧
    validate_measurements_full "inf, 1, 2" =
      .error (.rangeError "IOP value is out of acceptable range (0-100 mmHg)") :=
  ⟨by rfl, by decide, by rfl, by rfl, by decide, by rfl⟩

/-- C3 (amended): classification of validation outcomes under the full model
of `float()` (ASCII input strings; values in exact decimal arithmetic).
`ParseError` occurs exactly when the comma-split token list is empty after
discarding blank tokens or some token is not accepted by `float()` — which
accepts, beyond plain decimal numbers, scientific notation,
underscore-separated digits and the special values nan and inf;
`RangeError` exactly when every token parses and some value compares below 0
or above 100 in float ordering (an infinity does, NaN does not: NaN passes
the range check); `InsufficientDataError` exactly when all values parse in
range but fewer than 3 remain; otherwise validation succeeds.  The three
failure kinds are distinct constructors of `IOPError`, and the `Except`
result carries no partial data on failure. -/
theorem validate_measurements_full_error_taxonomy (s : String)
    (_hascii : ∀ c ∈ s.toList, c.toNat < 128) :
    ((∃ e, validate_measurements_full s = .error (.parseError e)) ↔
      (iopTokens s = [] ∨ ∃ t ∈ iopTokens s, pyFloatFull t = none)) ∧
    ((∃ e, validate_measurements_full s = .error (.rangeError e)) ↔
      ((∀ t ∈ iopTokens s, (pyFloatFull t).isSome) ∧
        ∃ t ∈ iopTokens s, ∃ v, pyFloatFull t = some v ∧
          (pyValLt v MIN_IOP_VALUE = true ∨ pyValGt v MAX_IOP_VALUE = true))) ∧
    ((∃ e, validate_measurements_full s = .error (.insufficientDataError e)) ↔
      ((∀ t ∈ iopTokens s, (pyFloatFull t).isSome) ∧
        (∀ t ∈ iopTokens s, ∀ v, pyFloatFull t = some v →
          pyValLt v MIN_IOP_VALUE = false ∧ pyValGt v MAX_IOP_VALUE = false) ∧
        iopTokens s ≠ [] ∧ (iopTokens s).length < 3)) ∧
    ((∃ l, validate_measurements_full s = .ok l) ↔
      ((∀ t ∈ iopTokens s, (pyFloatFull t).isSome) ∧
        (∀ t ∈ iopTokens s, ∀ v, pyFloatFull t = some v →
          pyValLt v MIN_IOP_VALUE = false ∧ pyValGt v MAX_IOP_VALUE = false) ∧
        3 ≤ (iopTokens s).length)) := by
  by_cases hA : iopTokens s = [] ∨ ∃ t ∈ iopTokens s, pyFloatFull t = none
  · have hres : ∃ e, validate_measurements_full s = .error (.parseError e) := by
      rcases hA with hA0 | ⟨t, ht, hbad⟩
      · obtain ⟨e, he⟩ := parse_full_error_of_empty_tokens hA0
        exact ⟨e, validate_full_of_parse_error he⟩
      · obtain ⟨e, he⟩ := parse_full_error_of_bad_token ht hbad
        exact ⟨e, validate_full_of_parse_error he⟩
    obtain ⟨e, he⟩ := hres
    have hnotSome : ¬ ((∀ t ∈ iopTokens s, (pyFloatFull t).isSome) ∧
        iopTokens s ≠ []) := by
      rintro ⟨hall2, hne2⟩
      rcases hA with hA0 | ⟨u, hu, hbu⟩
      · exact hne2 hA0
      · have := hall2 u hu
        rw [hbu] at this
        simp at this
    refine ⟨⟨fun _ => hA, fun _ => ⟨e, he⟩⟩, ?_, ?_, ?_⟩
    · constructor
      · rintro ⟨e2, he2⟩
        rw [he] at he2
        injection he2 with h3
        exact IOPError.noConfusion h3
      · rintro ⟨hall2, t, ht, -⟩
        exact absurd ⟨hall2, List.ne_nil_of_mem ht⟩ hnotSome
    · constructor
      · rintro ⟨e2, he2⟩
        rw [he] at he2
        injection he2 with h3
        exact IOPError.noConfusion h3
      · rintro ⟨hall2, -, hne2, -⟩
        exact absurd ⟨hall2, hne2⟩ hnotSome
    · constructor
      · rintro ⟨l, hl⟩
        rw [he] at hl
        exact Except.noConfusion hl
      · rintro ⟨hall2, -, hlen2⟩
        refine absurd ⟨hall2, ?_⟩ hnotSome
        intro h0
        rw [h0] at hlen2
        simp at hlen2
  · have hA' := hA
    push_neg at hA'
    obtain ⟨hne, hall0⟩ := hA'
    have hall : ∀ t ∈ iopTokens s, (pyFloatFull t).isSome := fun t ht =>
      Option.ne_none_iff_isSome.mp (hall0 t ht)
    by_cases hB : ∃ t ∈ iopTokens s, ∃ v, pyFloatFull t = some v ∧
        (pyValLt v MIN_IOP_VALUE = true ∨ pyValGt v MAX_IOP_VALUE = true)
    · obtain ⟨e, he0⟩ := parse_full_error_of_out_of_range hall hB
      have he : validate_measurements_full s = .error (.rangeError e) :=
        validate_full_of_parse_error he0
      refine ⟨?_, ⟨fun _ => ⟨hall, hB⟩, fun _ => ⟨e, he⟩⟩, ?_, ?_⟩
      · constructor
        · rintro ⟨e2, he2⟩
          rw [he] at he2
          injection he2 with h3
          exact IOPError.noConfusion h3
        · intro h0
          exact absurd h0 hA
      · constructor
        · rintro ⟨e2, he2⟩
          rw [he] at he2
          injection he2 with h3
          exact IOPError.noConfusion h3
        · rintro ⟨-, hrange2, -, -⟩
          obtain ⟨t, ht, v, hv, hbad⟩ := hB
          have hr := hrange2 t ht v hv
          rcases hbad with h | h
          · rw [hr.1] at h
            exact Bool.noConfusion h
          · rw [hr.2] at h
            exact Bool.noConfusion h
      · constructor
        · rintro ⟨l, hl⟩
          rw [he] at hl
          exact Except.noConfusion hl
        · rintro ⟨-, hrange2, -⟩
          obtain ⟨t, ht, v, hv, hbad⟩ := hB
          have hr := hrange2 t ht v hv
          rcases hbad with h | h
          · rw [hr.1] at h
            exact Bool.noConfusion h
          · rw [hr.2] at h
            exact Bool.noConfusion h
    · have hrange : ∀ t ∈ iopTokens s, ∀ v, pyFloatFull t = some v →
          pyValLt v MIN_IOP_VALUE = false ∧ pyValGt v MAX_IOP_VALUE = false := by
        push_neg at hB
        intro t ht v hv
        have h := hB t ht v hv
        simp only [Bool.not_eq_true] at h
        exact h
      by_cases hlen : (iopTokens s).length < 3
      · obtain ⟨e, he⟩ := validate_full_insufficient hall hrange hne hlen
        refine ⟨?_, ?_, ⟨fun _ => ⟨hall, hrange, hne, hlen⟩, fun _ => ⟨e, he⟩⟩, ?_⟩
        · constructor
          · rintro ⟨e2, he2⟩
            rw [he] at he2
            injection he2 with h3
            exact IOPError.noConfusion h3
          · intro h0
            exact absurd h0 hA
        · constructor
          · rintro ⟨e2, he2⟩
            rw [he] at he2
            injection he2 with h3
            exact IOPError.noConfusion h3
          · rintro ⟨-, hbad⟩
            exact absurd hbad hB
        · constructor
          · rintro ⟨l, hl⟩
            rw [he] at hl
            exact Except.noConfusion hl
          · rintro ⟨-, -, hlen2⟩
            omega
      · have hlen2 : 3 ≤ (iopTokens s).length := by omega
        obtain ⟨vs, hok⟩ := validate_full_ok_of_enough hall hrange hlen2
        refine ⟨?_, ?_, ?_, ⟨fun _ => ⟨hall, hrange, hlen2⟩, fun _ => ⟨vs, hok⟩⟩⟩
        · constructor
          · rintro ⟨e2, he2⟩
            rw [hok] at he2
            exact Except.noConfusion he2
          · intro h0
            exact absurd h0 hA
        · constructor
          · rintro ⟨e2, he2⟩
            rw [hok] at he2
            exact Except.noConfusion he2
          · rintro ⟨-, hbad⟩
            exact absurd hbad hB
        · constructor
          · rintro ⟨e2, he2⟩
            rw [hok] at he2
            exact Except.noConfusion he2
          · rintro ⟨-, -, -, hlen3⟩
            omega

/-- Witness for C3 at the ASCII input `"inf, 1, 2"`. -/
theorem validate_measurements_full_error_taxonomy_witness :
    (∀ c ∈ ("inf, 1, 2" : String).toList, c.toNat < 128) ∧
    (((∃ e, validate_measurements_full "inf, 1, 2" = .error (.parseError e)) ↔
      (iopTokens "inf, 1, 2" = [] ∨ ∃ t ∈ iopTokens "inf, 1, 2", pyFloatFull t = none)) ∧
    ((∃ e, validate_measurements_full "inf, 1, 2" = .error (.rangeError e)) ↔
      ((∀ t ∈ iopTokens "inf, 1, 2", (pyFloatFull t).isSome) ∧
        ∃ t ∈ iopTokens "inf, 1, 2", ∃ v, pyFloatFull t = some v ∧
          (pyValLt v MIN_IOP_VALUE = true ∨ pyValGt v MAX_IOP_VALUE = true))) ∧
    ((∃ e, validate_measurements_full "inf, 1, 2" = .error (.insufficientDataError e)) ↔
      ((∀ t ∈ iopTokens "inf, 1, 2", (pyFloatFull t).isSome) ∧
        (∀ t ∈ iopTokens "inf, 1, 2", ∀ v, pyFloatFull t = some v →
          pyValLt v MIN_IOP_VALUE = false ∧ pyValGt v MAX_IOP_VALUE = false) ∧
        iopTokens "inf, 1, 2" ≠ [] ∧ (iopTokens "inf, 1, 2").length < 3)) ∧
    ((∃ l, validate_measurements_full "inf, 1, 2" = .ok l) ↔
      ((∀ t ∈ iopTokens "inf, 1, 2", (pyFloatFull t).isSome) ∧
        (∀ t ∈ iopTokens "inf, 1, 2", ∀ v, pyFloatFull t = some v →
          pyValLt v MIN_IOP_VALUE = false ∧ pyValGt v MAX_IOP_VALUE = false) ∧
        3 ≤ (iopTokens "inf, 1, 2").length))) :=
  ⟨by decide, validate_measurements_full_error_taxonomy "inf, 1, 2" (by decide)⟩
